import Mathlib

/-!
Shallow embedding of the fibapi `FibTracker` (src/fib.go) and its
slot-indexed slice cache.  Go `uint32` arithmetic is modelled on `Nat`
with explicit `% U` (`U = 2^32`) exactly where the Go code can wrap
(`idx+1`, `pairIdx-1`, `closeIndex -= cachePad`).  Go `*big.Int`
values are modelled as `Nat` with value semantics (the code only ever
copies values into the cache via `big.Int.Set`, so sequential runs are
value-faithful).  A fallible cache backend is modelled as an explicit
result type; the tracker's code branches only on `err == nil`, which
the embedding mirrors by matching on `found` versus everything else.
-/

/-- Modulus of Go `uint32` arithmetic. -/
def U : Nat := 4294967296

/-- Textbook Fibonacci recurrence `v_0 = 0, v_1 = 1, v_{n+2} = v_{n+1} + v_n`. -/
def fib : Nat → Nat
  | 0 => 0
  | 1 => 1
  | n+2 => fib (n+1) + fib n

/-- Value preceding `fib k` in the sequence, with `fibPrev 0 = 1`
(the extended value `v_{-1} = 1`, matching the tracker's origin pair `(0, 1)`). -/
def fibPrev : Nat → Nat
  | 0 => 1
  | n+1 => fib n

/-- Go struct `fibPair`: two big.Int values, modelled by value. -/
structure fibPair where
  i : Nat
  j : Nat
  deriving DecidableEq

/-- The initial entry value stored at index 0 by `MakeSliceCache`. -/
def originPair : fibPair := ⟨0, 1⟩

/-- Go struct `scEntry`: a cached index together with its pair. -/
structure scEntry where
  idx : Nat
  pair : fibPair
  deriving DecidableEq

/-- Zero value used when reading a slot (irrelevant: all reads are in bounds). -/
def zeroEntry : scEntry := ⟨0, ⟨0, 0⟩⟩

/-- Go `make([]scEntry, n)` followed by the init loop of `MakeSliceCache`:
`n` entries, each with index 0 and pair value `(0, 0)`. -/
def zeroEntries : Nat → List scEntry
  | 0 => []
  | n+1 => zeroEntry :: zeroEntries n

/-- Contents of a freshly constructed slice cache of capacity `n`:
slot 0 holds the origin entry `(0, (0,1))`, the rest are zero entries. -/
def freshCache (n : Nat) : List scEntry :=
  (zeroEntries n).set 0 ⟨0, originPair⟩

/-- Outcome of `MakeSliceCache`: either a Go runtime panic, or a normal
return carrying the cache and the returned `error` value (`none` = nil). -/
inductive MakeSliceResult where
  | panicked
  | ok (cache : List scEntry) (err : Option Unit)
  deriving DecidableEq

/-- Go `MakeSliceCache(size int)`: `make` panics for a negative length;
the assignment `sc[0] = ...` panics (index out of range) when the slice is
empty; otherwise the function returns the initialized cache and a nil error. -/
def MakeSliceCache (size : Int) : MakeSliceResult :=
  if size < 0 then .panicked
  else
    let sc := zeroEntries size.toNat
    if 0 < sc.length then .ok (sc.set 0 ⟨0, originPair⟩) none
    else .panicked

/-- Go `sliceCache.Get`: read slot `idx % len`, report the pair only when the
stored index equals the requested one; `none` models the `notFound` error. -/
def scGet (c : List scEntry) (idx : Nat) : Option fibPair :=
  let e := c.getD (idx % c.length) zeroEntry
  if e.idx = idx then some e.pair else none

/-- Go `sliceCache.Set`: unconditionally overwrite slot `idx % len` with the
requested index and a value copy of the pair. -/
def scSet (c : List scEntry) (idx : Nat) (p : fibPair) : List scEntry :=
  c.set (idx % c.length) ⟨idx, p⟩

/-- Result of a backend `Get(uint32) (fibPair, error)`: a pair with nil error,
the `notFound` error, or any other (failure) error. -/
inductive GetRes where
  | found (p : fibPair)
  | notFound
  | failed
  deriving DecidableEq

/-- Result of a backend `Set(uint32, fibPair) error`. -/
inductive SetRes where
  | ok
  | failed
  deriving DecidableEq

/-- A cache backend implementing the Go `fibCache` interface, over an explicit
state type `σ` (operations may observe and change backend state). -/
structure Backend (σ : Type) where
  get : Nat → σ → GetRes × σ
  set : Nat → fibPair → σ → SetRes × σ

/-- The slice cache as a `fibCache` backend: `Get`/`Set` never fail. -/
def scBackend : Backend (List scEntry) where
  get := fun idx s =>
    match scGet s idx with
    | some p => (.found p, s)
    | none => (.notFound, s)
  set := fun idx p s => (.ok, scSet s idx p)

/-- Replace every backend `Get` failure by `notFound` and every `Set` failure
by success, keeping all state transitions. -/
def collapse {σ : Type} (B : Backend σ) : Backend σ where
  get := fun k s =>
    match B.get k s with
    | (.failed, s2) => (.notFound, s2)
    | r => r
  set := fun k p s => (.ok, (B.set k p s).2)

/-- A backend whose every operation fails. -/
def failBackend : Backend Unit where
  get := fun _ _ => (.failed, ())
  set := fun _ _ _ => (.failed, ())

/-- Go struct `CacheStats`. -/
structure CacheStats where
  NDirectHit : Nat
  NCloseHit : Nat
  NMiss : Nat
  deriving DecidableEq

/-- Stats of a freshly made tracker (`MakeFibTracker` zeroes all counters). -/
def zeroStats : CacheStats := ⟨0, 0, 0⟩

/-- Go `countHit`. -/
def bumpDirect (st : CacheStats) : CacheStats := { st with NDirectHit := st.NDirectHit + 1 }

/-- Go `countClose`. -/
def bumpClose (st : CacheStats) : CacheStats := { st with NCloseHit := st.NCloseHit + 1 }

/-- Go `countMiss`. -/
def bumpMiss (st : CacheStats) : CacheStats := { st with NMiss := st.NMiss + 1 }

/-- The loop body of `calcFromPair`, iterated `steps` times starting at loop
counter `i` with current values `(n1, n2)`: each step computes
`n2.Add(n2, n1)`, swaps, and caches the current pair when `i` is a multiple
of the pad.  `steps` equals the Go iteration count `(idx+1) - (pairIdx+1)`
computed in `uint32`. -/
def walk {σ : Type} (pad : Nat) (B : Backend σ) : Nat → Nat → Nat → Nat → σ → Nat × Nat × σ
  | _, 0, n1, n2, s => (n1, n2, s)
  | i, steps+1, n1, n2, s =>
    let m1 := n2 + n1
    let m2 := n1
    let s2 := if i % pad = 0 then (B.set i ⟨m1, m2⟩ s).2 else s
    walk pad B (i+1) steps m1 m2 s2

/-- Go `FibTracker.calcFromPair`: short-circuits when `idx` is the pair's own
index or (in wrapping `uint32` arithmetic) `pairIdx - 1`, else walks the
recurrence from `pairIdx+1` up to `idx` inclusive, with the wrap of both the
initial counter and the loop bound made explicit. -/
def calcFromPair {σ : Type} (pad : Nat) (B : Backend σ) (pairIdx : Nat) (pair : fibPair)
    (idx : Nat) (s : σ) : Nat × σ :=
  if pairIdx = idx then (pair.i, s)
  else if (pairIdx + (U - 1)) % U = idx then (pair.j, s)
  else
    let r := walk pad B ((pairIdx + 1) % U) ((idx + 1) % U - (pairIdx + 1) % U) pair.i pair.j s
    (r.1, r.2.2)

/-- Go `FibTracker.calcFromZero`: resets the base pair to `(0, 1)` and
computes from index 0. -/
def calcFromZero {σ : Type} (pad : Nat) (B : Backend σ) (idx : Nat) (s : σ) : Nat × σ :=
  calcFromPair pad B 0 ⟨0, 1⟩ idx s

/-- Go `FibTracker.roundDownToPad`, with its (dead, for positive pad)
underflow clamp retained. -/
def roundDownToPad (pad idx : Nat) : Nat :=
  let rounded := idx - idx % pad
  if rounded > idx then 0 else rounded

/-- The close-hit probe loop of `Get`: up to `fuel` (10 in the code) probes at
`closeIndex, closeIndex - pad, ...` (wrapping in `uint32`), guarded by
`closeIndex <= idx`, returning the first anchor found. -/
def probeLoop {σ : Type} (pad : Nat) (B : Backend σ) (idx : Nat) :
    Nat → Nat → σ → Option (Nat × fibPair) × σ
  | _, 0, s => (none, s)
  | closeIndex, fuel+1, s =>
    if closeIndex ≤ idx then
      match B.get closeIndex s with
      | (.found p, s2) => (some (closeIndex, p), s2)
      | (_, s2) => probeLoop pad B idx ((closeIndex + (U - pad)) % U) fuel s2
    else (none, s)

/-- The close-hit / miss tail of `Get`: probe for a nearby anchor, compute
from it on success (close hit), else compute from zero (miss). -/
def closeOrMiss {σ : Type} (pad : Nat) (B : Backend σ) (idx : Nat) (stats : CacheStats)
    (s : σ) : Nat × CacheStats × σ :=
  match probeLoop pad B idx (roundDownToPad pad idx) 10 s with
  | (some cip, s2) =>
    let r := calcFromPair pad B cip.1 cip.2 idx s2
    (r.1, bumpClose stats, r.2)
  | (none, s2) =>
    let r := calcFromZero pad B idx s2
    (r.1, bumpMiss stats, r.2)

/-- Go `FibTracker.Get`: direct hit on the low member when `idx` is a pad
multiple, else direct hit on the high member of the pair cached at
`idx+1` (computed in `uint32`, hence the `% U`), else the close-hit / miss
tail.  A probe whose error is non-nil falls through exactly like `notFound`. -/
def trackerGet {σ : Type} (pad : Nat) (B : Backend σ) (idx : Nat) (stats : CacheStats)
    (s : σ) : Nat × CacheStats × σ :=
  if idx % pad = 0 then
    match B.get idx s with
    | (.found p, s2) => (p.i, bumpDirect stats, s2)
    | (_, s2) => closeOrMiss pad B idx stats s2
  else if (idx + 1) % U % pad = 0 then
    match B.get ((idx + 1) % U) s with
    | (.found p, s2) => (p.j, bumpDirect stats, s2)
    | (_, s2) => closeOrMiss pad B idx stats s2
  else closeOrMiss pad B idx stats s

/-- One tracker `Get` over the slice cache, keeping stats and cache. -/
def stepSC (pad : Nat) (st : CacheStats × List scEntry) (idx : Nat) : CacheStats × List scEntry :=
  let r := trackerGet pad scBackend idx st.1 st.2
  (r.2.1, r.2.2)

/-- Run a sequence of `Get` calls on a freshly constructed tracker
(`MakeFibTracker` with a fresh slice cache of capacity `N`). -/
def runGets (pad N : Nat) (idxs : List Nat) : CacheStats × List scEntry :=
  idxs.foldl (stepSC pad) (zeroStats, freshCache N)

/-- State after the sequential calls `Get 0, Get 1, ..., Get k` on a freshly
constructed tracker. -/
def runUpTo (pad N : Nat) : Nat → CacheStats × List scEntry
  | 0 => stepSC pad (zeroStats, freshCache N) 0
  | k+1 => stepSC pad (runUpTo pad N k) (k+1)

/-- A pair is the one the tracker's backfill publishes for index `k`:
the value at `k` together with the value at `k-1` (with `v_{-1} = 1`,
so the origin entry `(0, 1)` is the instance at `k = 0`). -/
def goodPair (k : Nat) (p : fibPair) : Prop := p.i = fib k ∧ p.j = fibPrev k

/-- Every readable entry of a slice cache is a published pair for its index. -/
def cacheGood (c : List scEntry) : Prop := ∀ k p, scGet c k = some p → goodPair k p

/-- Every readable entry sits at a pad multiple (index 0 included). -/
def padAligned (pad : Nat) (c : List scEntry) : Prop :=
  ∀ k p, scGet c k = some p → k % pad = 0

/-- Invariant of slice caches reachable from a fresh tracker. -/
def scInv (pad N : Nat) (c : List scEntry) : Prop :=
  c.length = N ∧ cacheGood c ∧ padAligned pad c

/-- A backend together with a ghost history predicate `stored`, constraining
successful `Get` results to pairs previously stored on it: a successful get
yields a stored pair, gets create no stored pairs, and a set adds at most
its own pair. -/
structure HBackend (σ : Type) extends Backend σ where
  stored : σ → Nat → fibPair → Prop
  get_found : ∀ k s p s2, toBackend.get k s = (.found p, s2) → stored s k p
  get_mono : ∀ k s k2 p2, stored (toBackend.get k s).2 k2 p2 → stored s k2 p2
  set_mono : ∀ k p s k2 p2,
    stored (toBackend.set k p s).2 k2 p2 → stored s k2 p2 ∨ (k2 = k ∧ p2 = p)

/-- Every pair stored on the backend is the published pair for its index. -/
def goodStored {σ : Type} (HB : HBackend σ) (s : σ) : Prop :=
  ∀ k p, HB.stored s k p → goodPair k p

/-- A trivial honest backend (always misses, never stores anything). -/
def trivHB : HBackend Unit where
  get := fun _ _ => (.notFound, ())
  set := fun _ _ _ => (.ok, ())
  stored := fun _ _ _ => False
  get_found := fun _ _ _ _ h => by simp at h
  get_mono := fun _ _ _ _ h => h
  set_mono := fun _ _ _ _ _ h => h.elim

theorem fib_succ (n : Nat) : fib (n + 1) = fib n + fibPrev n := by
  cases n with
  | zero => rfl
  | succ m => rw [fib, fibPrev]

theorem fib_eq_nat_fib (n : Nat) : fib n = Nat.fib n := by
  induction n using Nat.strong_induction_on with
  | _ n ih =>
    match n with
    | 0 => rfl
    | 1 => rfl
    | m + 2 =>
      rw [fib, Nat.fib_add_two, ih (m+1) (by omega), ih m (by omega)]
      omega

theorem two_le_fib {n : Nat} (h : 3 ≤ n) : 2 ≤ fib n := by
  have h2 : Nat.fib 3 ≤ Nat.fib n := Nat.fib_mono h
  rw [fib_eq_nat_fib]
  simpa using h2

theorem goodPair_ext {k : Nat} {p : fibPair} (h : goodPair k p) :
    p = ⟨fib k, fibPrev k⟩ := by
  obtain ⟨h1, h2⟩ := h
  cases p
  simp_all [goodPair]

theorem goodPair_origin : goodPair 0 originPair := ⟨rfl, rfl⟩

theorem zeroEntries_length (n : Nat) : (zeroEntries n).length = n := by
  induction n with
  | zero => rfl
  | succ m ih => simp [zeroEntries, ih]

theorem zeroEntries_getElem? {n m : Nat} (h : m < n) :
    (zeroEntries n)[m]? = some zeroEntry := by
  induction n generalizing m with
  | zero => omega
  | succ k ih =>
    cases m with
    | zero => simp [zeroEntries]
    | succ m2 =>
      have : m2 < k := by omega
      simpa [zeroEntries] using ih this

theorem freshCache_length (n : Nat) : (freshCache n).length = n := by
  simp [freshCache, zeroEntries_length]

theorem scGet_fresh {n : Nat} (hn : 0 < n) (j : Nat) :
    scGet (freshCache n) j = if j = 0 then some originPair else none := by
  have hlen : (freshCache n).length = n := freshCache_length n
  have hslot : j % n < n := Nat.mod_lt _ hn
  have hget : (freshCache n)[j % n]? =
      if j % n = 0 then some (⟨0, originPair⟩ : scEntry) else some zeroEntry := by
    by_cases hj : j % n = 0
    · rw [if_pos hj, hj, freshCache]
      exact List.getElem?_set_self (by rw [zeroEntries_length]; omega)
    · rw [if_neg hj, freshCache, List.getElem?_set_ne (by omega)]
      exact zeroEntries_getElem? hslot
  unfold scGet
  rw [List.getD_eq_getElem?_getD, hlen, hget]
  by_cases hj : j % n = 0
  · rw [if_pos hj]
    by_cases h0 : j = 0
    · simp [h0]
    · simp [h0, Ne.symm h0]
  · rw [if_neg hj]
    have h0 : j ≠ 0 := fun h => hj (by rw [h]; simp)
    simp [zeroEntry, Ne.symm h0, h0]

theorem scSet_length (c : List scEntry) (i : Nat) (p : fibPair) :
    (scSet c i p).length = c.length := by
  simp [scSet]

theorem scGet_scSet_self {c : List scEntry} (hc : 0 < c.length) (i : Nat) (p : fibPair) :
    scGet (scSet c i p) i = some p := by
  have hslot : i % c.length < c.length := Nat.mod_lt _ hc
  unfold scGet scSet
  rw [List.getD_eq_getElem?_getD, List.length_set,
    List.getElem?_set_self (by omega)]
  simp

theorem scGet_scSet_ne_slot {c : List scEntry} {i j : Nat} (p : fibPair)
    (h : j % c.length ≠ i % c.length) :
    scGet (scSet c i p) j = scGet c j := by
  unfold scGet scSet
  rw [List.getD_eq_getElem?_getD, List.length_set,
    List.getElem?_set_ne (by omega), ← List.getD_eq_getElem?_getD]

theorem scGet_scSet_same_slot_ne {c : List scEntry} {i j : Nat} (hc : 0 < c.length)
    (p : fibPair) (hne : j ≠ i) (h : j % c.length = i % c.length) :
    scGet (scSet c i p) j = none := by
  have hslot : i % c.length < c.length := Nat.mod_lt _ hc
  unfold scGet scSet
  rw [List.getD_eq_getElem?_getD, List.length_set, h,
    List.getElem?_set_self (by omega)]
  simp [Ne.symm hne]

theorem scGet_scSet_cases {c : List scEntry} {i j : Nat} {p q : fibPair}
    (hc : 0 < c.length) (h : scGet (scSet c i p) j = some q) :
    (j = i ∧ q = p) ∨ scGet c j = some q := by
  by_cases hslot : j % c.length = i % c.length
  · by_cases hji : j = i
    · left
      refine ⟨hji, ?_⟩
      rw [hji, scGet_scSet_self hc] at h
      exact (Option.some_injective _ h).symm
    · rw [scGet_scSet_same_slot_ne hc p hji hslot] at h
      exact absurd h (by simp)
  · right
    rwa [scGet_scSet_ne_slot p hslot] at h

/-- C9: for a positive `cachePad`, `roundDownToPad` never exceeds its input,
and every input below the pad rounds to 0 (no unsigned underflow). -/
theorem C9_roundDown_le (pad idx : Nat) (hpad : 0 < pad) :
    roundDownToPad pad idx ≤ idx ∧ (idx < pad → roundDownToPad pad idx = 0) := by
  have hle : idx % pad ≤ idx := Nat.mod_le idx pad
  constructor
  · unfold roundDownToPad
    simp only [gt_iff_lt]
    rw [if_neg (by omega)]
    omega
  · intro hlt
    unfold roundDownToPad
    rw [Nat.mod_eq_of_lt hlt]
    simp

theorem C9_roundDown_le_witness :
    (0 < 5) ∧ (roundDownToPad 5 3 ≤ 3 ∧ (3 < 5 → roundDownToPad 5 3 = 0)) :=
  ⟨by decide, C9_roundDown_le 5 3 (by decide)⟩

/-- C4: `Set` unconditionally overwrites slot `i mod N` with `(i, p)`;
afterwards `Get i` reports found with a pair equal in value to `p`, while
`Get j` for any other index mapping to the same slot reports not found. -/
theorem C4_slice_set_get (c : List scEntry) (i j : Nat) (p : fibPair)
    (hc : 0 < c.length) (hi : i < U) (hj : j < U) (hne : j ≠ i)
    (hslot : j % c.length = i % c.length) :
    (scSet c i p).getD (i % c.length) zeroEntry = ⟨i, p⟩ ∧
    scGet (scSet c i p) i = some p ∧
    scGet (scSet c i p) j = none := by
  refine ⟨?_, scGet_scSet_self hc i p, scGet_scSet_same_slot_ne hc p hne hslot⟩
  have hslot2 : i % c.length < c.length := Nat.mod_lt _ hc
  unfold scSet
  rw [List.getD_eq_getElem?_getD, List.getElem?_set_self (by omega)]
  rfl

theorem C4_slice_set_get_witness :
    (0 < (freshCache 4).length) ∧ (5 < U) ∧ (1 < U) ∧ (1 ≠ 5) ∧
      (1 % (freshCache 4).length = 5 % (freshCache 4).length) ∧
      ((scSet (freshCache 4) 5 ⟨2, 3⟩).getD (5 % (freshCache 4).length) zeroEntry = ⟨5, ⟨2, 3⟩⟩ ∧
        scGet (scSet (freshCache 4) 5 ⟨2, 3⟩) 5 = some ⟨2, 3⟩ ∧
        scGet (scSet (freshCache 4) 5 ⟨2, 3⟩) 1 = none) :=
  ⟨by decide, by decide, by decide, by decide, by decide,
    C4_slice_set_get (freshCache 4) 5 1 ⟨2, 3⟩ (by decide) (by decide) (by decide)
      (by decide) (by decide)⟩

/-- C5 counterexample: `MakeSliceCache 0` does not return an error to its
caller — it panics (index out of range on `sc[0]`), so no error value is
ever signalled for the invalid capacity. -/
theorem C5_counterexample_make_zero_panics : MakeSliceCache 0 = .panicked := by
  decide

/-- C5 amended: construction with capacity at most 0 fails by a runtime
panic (not by an error returned to the caller). -/
theorem C5_make_nonpositive_panics (size : Int) (h : size ≤ 0) :
    MakeSliceCache size = .panicked := by
  unfold MakeSliceCache
  by_cases hneg : size < 0
  · rw [if_pos hneg]
  · have hz : size = 0 := by omega
    subst hz
    decide

theorem C5_make_nonpositive_panics_witness :
    ((-1 : Int) ≤ 0) ∧ MakeSliceCache (-1) = .panicked :=
  ⟨by decide, C5_make_nonpositive_panics (-1) (by decide)⟩

theorem Umod_of_lt {x : Nat} (h : x < U) : x % U = x := Nat.mod_eq_of_lt h

theorem subU_mod {x pad : Nat} (hpad : pad ≤ x) (hx : x < U) (hpU : pad ≤ U) :
    (x + (U - pad)) % U = x - pad := by
  have h1 : x + (U - pad) = (x - pad) + U := by omega
  rw [h1, Nat.add_mod_right]
  exact Nat.mod_eq_of_lt (by omega)

theorem roundDownToPad_eq (pad idx : Nat) :
    roundDownToPad pad idx = idx - idx % pad := by
  have := Nat.mod_le idx pad
  unfold roundDownToPad
  rw [if_neg (by omega)]

theorem rd_mod (pad idx : Nat) : (idx - idx % pad) % pad = 0 := by
  conv_lhs =>
    rw [show idx - idx % pad = pad * (idx / pad) by
      have := Nat.div_add_mod idx pad; omega]
  exact Nat.mul_mod_right _ _

theorem mult_le_rd {pad m idx : Nat} (hpad : 0 < pad) (hm : m % pad = 0) (h : m ≤ idx) :
    m ≤ idx - idx % pad := by
  obtain ⟨a, ha⟩ := Nat.dvd_of_mod_eq_zero hm
  have hdiv : a ≤ idx / pad := by
    rw [Nat.le_div_iff_mul_le hpad, Nat.mul_comm]
    omega
  have h2 : idx - idx % pad = pad * (idx / pad) := by
    have := Nat.div_add_mod idx pad; omega
  rw [h2, ha]
  exact Nat.mul_le_mul_left pad hdiv

theorem mult_gap {pad m m2 : Nat} (hpad : 0 < pad) (hm : m % pad = 0) (hm2 : m2 % pad = 0)
    (h : m < m2) : m + pad ≤ m2 := by
  obtain ⟨a, ha⟩ := Nat.dvd_of_mod_eq_zero hm
  obtain ⟨b, hb⟩ := Nat.dvd_of_mod_eq_zero hm2
  have hab : a < b := by
    by_contra hc
    push_neg at hc
    have : pad * b ≤ pad * a := Nat.mul_le_mul_left pad hc
    omega
  have h2 : pad * (a + 1) ≤ pad * b := Nat.mul_le_mul_left pad hab
  have h3 : pad * (a + 1) = pad * a + pad := by ring
  omega

theorem fib_succ_comm (a : Nat) : fibPrev a + fib a = fib (a + 1) := by
  rw [fib_succ]; omega

theorem walk_zero {σ : Type} (pad : Nat) (B : Backend σ) (i n1 n2 : Nat) (s : σ) :
    walk pad B i 0 n1 n2 s = (n1, n2, s) := rfl

theorem walk_succ {σ : Type} (pad : Nat) (B : Backend σ) (i steps n1 n2 : Nat) (s : σ) :
    walk pad B i (steps+1) n1 n2 s =
      walk pad B (i+1) steps (n2 + n1) n1
        (if i % pad = 0 then (B.set i ⟨n2 + n1, n1⟩ s).2 else s) := rfl

theorem walk_step_good {σ : Type} (pad : Nat) (B : Backend σ) (a steps : Nat) (s : σ) :
    walk pad B (a+1) (steps+1) (fib a) (fibPrev a) s =
      walk pad B (a+2) steps (fib (a+1)) (fibPrev (a+1))
        (if (a+1) % pad = 0 then (B.set (a+1) ⟨fib (a+1), fibPrev (a+1)⟩ s).2 else s) := by
  rw [walk_succ, fib_succ_comm]
  rfl

theorem walk_values {σ : Type} (pad : Nat) (B : Backend σ) (steps : Nat) :
    ∀ (a : Nat) (s : σ),
      ((walk pad B (a+1) steps (fib a) (fibPrev a) s).1 = fib (a+steps)) ∧
      ((walk pad B (a+1) steps (fib a) (fibPrev a) s).2.1 = fibPrev (a+steps)) := by
  induction steps with
  | zero => intro a s; simp [walk_zero]
  | succ st ih =>
    intro a s
    rw [walk_step_good]
    have h := ih (a+1)
      (if (a+1) % pad = 0 then (B.set (a+1) ⟨fib (a+1), fibPrev (a+1)⟩ s).2 else s)
    have he : a + 1 + st = a + (st + 1) := by omega
    rw [he] at h
    exact h

theorem walk_good {σ : Type} {pad : Nat} {B : Backend σ} {good : σ → Prop}
    (hset : ∀ k p s, good s → goodPair k p → k % pad = 0 → good (B.set k p s).2)
    (steps : Nat) : ∀ (a : Nat) (s : σ), good s →
      good (walk pad B (a+1) steps (fib a) (fibPrev a) s).2.2 := by
  induction steps with
  | zero => intro a s h; simpa [walk_zero] using h
  | succ st ih =>
    intro a s h
    rw [walk_step_good]
    apply ih (a+1)
    by_cases hm : (a+1) % pad = 0
    · rw [if_pos hm]
      exact hset _ _ _ h ⟨rfl, rfl⟩ hm
    · rwa [if_neg hm]

theorem walk_collapse {σ : Type} (pad : Nat) (B : Backend σ) (steps : Nat) :
    ∀ (i n1 n2 : Nat) (s : σ),
      walk pad (collapse B) i steps n1 n2 s = walk pad B i steps n1 n2 s := by
  induction steps with
  | zero => intros; rfl
  | succ st ih =>
    intro i n1 n2 s
    rw [walk_succ, walk_succ, ih]
    by_cases hm : i % pad = 0
    · rw [if_pos hm, if_pos hm]
      rfl
    · rw [if_neg hm, if_neg hm]

theorem probeLoop_zero {σ : Type} (pad : Nat) (B : Backend σ) (idx ci : Nat) (s : σ) :
    probeLoop pad B idx ci 0 s = (none, s) := rfl

theorem probeLoop_gt {σ : Type} {pad idx ci : Nat} (B : Backend σ) (fuel : Nat) (s : σ)
    (hg : ¬ ci ≤ idx) : probeLoop pad B idx ci (fuel+1) s = (none, s) := by
  rw [probeLoop, if_neg hg]

theorem probeLoop_found {σ : Type} {pad idx ci : Nat} {B : Backend σ} {s s2 : σ}
    {p : fibPair} (fuel : Nat) (hg : ci ≤ idx) (hB : B.get ci s = (.found p, s2)) :
    probeLoop pad B idx ci (fuel+1) s = (some (ci, p), s2) := by
  rw [probeLoop, if_pos hg, hB]

theorem probeLoop_notFound {σ : Type} {pad idx ci : Nat} {B : Backend σ} {s s2 : σ}
    (fuel : Nat) (hg : ci ≤ idx) (hB : B.get ci s = (.notFound, s2)) :
    probeLoop pad B idx ci (fuel+1) s = probeLoop pad B idx ((ci + (U - pad)) % U) fuel s2 := by
  rw [probeLoop, if_pos hg, hB]

theorem probeLoop_failed {σ : Type} {pad idx ci : Nat} {B : Backend σ} {s s2 : σ}
    (fuel : Nat) (hg : ci ≤ idx) (hB : B.get ci s = (.failed, s2)) :
    probeLoop pad B idx ci (fuel+1) s = probeLoop pad B idx ((ci + (U - pad)) % U) fuel s2 := by
  rw [probeLoop, if_pos hg, hB]

theorem probeLoop_spec {σ : Type} (pad : Nat) {B : Backend σ} {good : σ → Prop}
    (hgetp : ∀ k s p s2, B.get k s = (.found p, s2) → good s → goodPair k p)
    (hgets : ∀ k s, good s → good (B.get k s).2)
    (idx : Nat) (fuel : Nat) : ∀ (ci : Nat) (s : σ), good s →
      good (probeLoop pad B idx ci fuel s).2 ∧
      (∀ a p, (probeLoop pad B idx ci fuel s).1 = some (a, p) →
        a ≤ idx ∧ goodPair a p) := by
  induction fuel with
  | zero =>
    intro ci s h
    rw [probeLoop_zero]
    exact ⟨h, by simp⟩
  | succ f ih =>
    intro ci s h
    by_cases hg : ci ≤ idx
    · rcases hB : B.get ci s with ⟨res, s2⟩
      have hs2 : good s2 := by
        have := hgets ci s h
        rwa [hB] at this
      cases res with
      | found p =>
        rw [probeLoop_found f hg hB]
        refine ⟨hs2, ?_⟩
        intro a q ha
        have h1 : ci = a ∧ p = q := by simpa using ha
        obtain ⟨h1a, h1b⟩ := h1
        subst h1a
        subst h1b
        exact ⟨hg, hgetp _ _ _ _ hB h⟩
      | notFound =>
        rw [probeLoop_notFound f hg hB]
        exact ih _ s2 hs2
      | failed =>
        rw [probeLoop_failed f hg hB]
        exact ih _ s2 hs2
    · rw [probeLoop_gt B f s hg]
      exact ⟨h, by simp⟩

theorem probeLoop_collapse {σ : Type} (pad : Nat) (B : Backend σ) (idx : Nat) (fuel : Nat) :
    ∀ (ci : Nat) (s : σ),
      probeLoop pad (collapse B) idx ci fuel s = probeLoop pad B idx ci fuel s := by
  induction fuel with
  | zero => intros; rfl
  | succ f ih =>
    intro ci s
    by_cases hg : ci ≤ idx
    · rcases hB : B.get ci s with ⟨res, s2⟩
      cases res with
      | found p =>
        have hC : (collapse B).get ci s = (.found p, s2) := by
          simp [collapse, hB]
        rw [probeLoop_found f hg hB, probeLoop_found f hg hC]
      | notFound =>
        have hC : (collapse B).get ci s = (.notFound, s2) := by
          simp [collapse, hB]
        rw [probeLoop_notFound f hg hB, probeLoop_notFound f hg hC, ih]
      | failed =>
        have hC : (collapse B).get ci s = (.notFound, s2) := by
          simp [collapse, hB]
        rw [probeLoop_failed f hg hB, probeLoop_notFound f hg hC, ih]
    · rw [probeLoop_gt B f s hg, probeLoop_gt (collapse B) f s hg]

theorem cfp_self {σ : Type} (pad : Nat) (B : Backend σ) (a : Nat) (pr : fibPair) (s : σ) :
    calcFromPair pad B a pr a s = (pr.i, s) := by
  rw [calcFromPair, if_pos rfl]

theorem cfp_wrap_top {σ : Type} (pad : Nat) (B : Backend σ) (pr : fibPair) (s : σ) :
    calcFromPair pad B 0 pr (U - 1) s = (pr.j, s) := by
  rw [calcFromPair, if_neg (by decide), if_pos (by decide)]

theorem cfp_lt {σ : Type} (pad : Nat) (B : Backend σ) {a idx : Nat} (pr : fibPair) (s : σ)
    (ha : a < idx) (hidx : idx + 1 < U) :
    calcFromPair pad B a pr idx s =
      ((walk pad B (a+1) (idx - a) pr.i pr.j s).1,
        (walk pad B (a+1) (idx - a) pr.i pr.j s).2.2) := by
  have haU : a < U := by omega
  have hwrap : (a + (U - 1)) % U ≠ idx := by
    rcases Nat.eq_zero_or_pos a with h0 | h1
    · subst h0
      rw [Nat.zero_add, Umod_of_lt (by omega)]
      omega
    · rw [show a + (U - 1) = (a - 1) + U by omega, Nat.add_mod_right,
        Umod_of_lt (by omega)]
      omega
  rw [calcFromPair, if_neg (by omega), if_neg hwrap,
    Umod_of_lt (show a + 1 < U by omega), Umod_of_lt (show idx + 1 < U by omega),
    show idx + 1 - (a + 1) = idx - a by omega]

theorem cfp_state_top {σ : Type} (pad : Nat) (B : Backend σ) (a : Nat) (pr : fibPair)
    (s : σ) : (calcFromPair pad B a pr (U - 1) s).2 = s := by
  by_cases h1 : a = U - 1
  · subst h1; rw [cfp_self]
  · rw [calcFromPair, if_neg h1]
    by_cases h2 : (a + (U - 1)) % U = U - 1
    · rw [if_pos h2]
    · rw [if_neg h2]
      have hb : (U - 1 + 1) % U = 0 := by decide
      rw [hb]
      rw [Nat.zero_sub, walk_zero]

theorem cfp_correct_le {σ : Type} (pad : Nat) (B : Backend σ) {a idx : Nat} {pr : fibPair}
    (s : σ) (ha : a ≤ idx) (hidx : idx + 1 < U) (hpr : goodPair a pr) :
    (calcFromPair pad B a pr idx s).1 = fib idx := by
  rcases Nat.eq_or_lt_of_le ha with he | hl
  · subst he
    rw [cfp_self]
    exact hpr.1
  · rw [cfp_lt pad B pr s hl hidx, goodPair_ext hpr]
    have h := (walk_values pad B (idx - a) a s).1
    simpa [show a + (idx - a) = idx by omega] using h

theorem cfp_good {σ : Type} {pad : Nat} {B : Backend σ} {good : σ → Prop}
    (hset : ∀ k p s, good s → goodPair k p → k % pad = 0 → good (B.set k p s).2)
    {a idx : Nat} {pr : fibPair} (s : σ) (ha : a ≤ idx) (hidx : idx < U)
    (hpr : goodPair a pr) (h : good s) :
    good (calcFromPair pad B a pr idx s).2 := by
  by_cases htop : idx + 1 < U
  · rcases Nat.eq_or_lt_of_le ha with he | hl
    · subst he
      rw [cfp_self]
      exact h
    · rw [cfp_lt pad B pr s hl htop, goodPair_ext hpr]
      exact walk_good hset (idx - a) a s h
  · have he : idx = U - 1 := by omega
    subst he
    rw [cfp_state_top]
    exact h

theorem cfp_collapse {σ : Type} (pad : Nat) (B : Backend σ) (a : Nat) (pr : fibPair)
    (idx : Nat) (s : σ) :
    calcFromPair pad (collapse B) a pr idx s = calcFromPair pad B a pr idx s := by
  rw [calcFromPair, calcFromPair, walk_collapse]

theorem closeOrMiss_found {σ : Type} {pad idx : Nat} {B : Backend σ} {s s2 : σ}
    {a : Nat} {p : fibPair} (stats : CacheStats)
    (hP : probeLoop pad B idx (roundDownToPad pad idx) 10 s = (some (a, p), s2)) :
    closeOrMiss pad B idx stats s =
      ((calcFromPair pad B a p idx s2).1, bumpClose stats,
        (calcFromPair pad B a p idx s2).2) := by
  rw [closeOrMiss, hP]

theorem closeOrMiss_none {σ : Type} {pad idx : Nat} {B : Backend σ} {s s2 : σ}
    (stats : CacheStats)
    (hP : probeLoop pad B idx (roundDownToPad pad idx) 10 s = (none, s2)) :
    closeOrMiss pad B idx stats s =
      ((calcFromZero pad B idx s2).1, bumpMiss stats, (calcFromZero pad B idx s2).2) := by
  rw [closeOrMiss, hP]

theorem closeOrMiss_spec {σ : Type} {pad : Nat} {B : Backend σ} {good : σ → Prop}
    (hgetp : ∀ k s p s2, B.get k s = (.found p, s2) → good s → goodPair k p)
    (hgets : ∀ k s, good s → good (B.get k s).2)
    (hset : ∀ k p s, good s → goodPair k p → k % pad = 0 → good (B.set k p s).2)
    (idx : Nat) (stats : CacheStats) (s : σ) (hidx : idx < U) (h : good s) :
    good (closeOrMiss pad B idx stats s).2.2 ∧
    (idx + 1 < U → (closeOrMiss pad B idx stats s).1 = fib idx) := by
  rcases hP : probeLoop pad B idx (roundDownToPad pad idx) 10 s with ⟨r, s2⟩
  have hspec := probeLoop_spec pad hgetp hgets idx 10 (roundDownToPad pad idx) s h
  rw [hP] at hspec
  obtain ⟨hg2, hres⟩ := hspec
  cases r with
  | some ap =>
    rcases ap with ⟨a, p⟩
    obtain ⟨hale, hpgood⟩ := hres a p rfl
    rw [closeOrMiss_found stats hP]
    exact ⟨cfp_good hset s2 hale hidx hpgood hg2,
      fun hi => cfp_correct_le pad B s2 hale hi hpgood⟩
  | none =>
    rw [closeOrMiss_none stats hP]
    refine ⟨?_, fun hi => ?_⟩
    · exact cfp_good hset s2 (Nat.zero_le idx) hidx ⟨rfl, rfl⟩ hg2
    · exact cfp_correct_le pad B s2 (Nat.zero_le idx) hi ⟨rfl, rfl⟩

theorem closeOrMiss_collapse {σ : Type} (pad : Nat) (B : Backend σ) (idx : Nat)
    (stats : CacheStats) (s : σ) :
    closeOrMiss pad (collapse B) idx stats s = closeOrMiss pad B idx stats s := by
  rw [closeOrMiss, closeOrMiss, probeLoop_collapse]
  rcases probeLoop pad B idx (roundDownToPad pad idx) 10 s with ⟨r, s2⟩
  cases r with
  | some ap => simp only [cfp_collapse]
  | none => simp only [calcFromZero, cfp_collapse]

theorem tg_b1_found {σ : Type} {pad idx : Nat} {B : Backend σ} {s s2 : σ} {p : fibPair}
    (stats : CacheStats) (h1 : idx % pad = 0) (hB : B.get idx s = (.found p, s2)) :
    trackerGet pad B idx stats s = (p.i, bumpDirect stats, s2) := by
  rw [trackerGet, if_pos h1, hB]

theorem tg_b1_notFound {σ : Type} {pad idx : Nat} {B : Backend σ} {s s2 : σ}
    (stats : CacheStats) (h1 : idx % pad = 0) (hB : B.get idx s = (.notFound, s2)) :
    trackerGet pad B idx stats s = closeOrMiss pad B idx stats s2 := by
  rw [trackerGet, if_pos h1, hB]

theorem tg_b1_failed {σ : Type} {pad idx : Nat} {B : Backend σ} {s s2 : σ}
    (stats : CacheStats) (h1 : idx % pad = 0) (hB : B.get idx s = (.failed, s2)) :
    trackerGet pad B idx stats s = closeOrMiss pad B idx stats s2 := by
  rw [trackerGet, if_pos h1, hB]

theorem tg_b2_found {σ : Type} {pad idx : Nat} {B : Backend σ} {s s2 : σ} {p : fibPair}
    (stats : CacheStats) (h1 : idx % pad ≠ 0) (h2 : (idx + 1) % U % pad = 0)
    (hB : B.get ((idx + 1) % U) s = (.found p, s2)) :
    trackerGet pad B idx stats s = (p.j, bumpDirect stats, s2) := by
  rw [trackerGet, if_neg h1, if_pos h2, hB]

theorem tg_b2_notFound {σ : Type} {pad idx : Nat} {B : Backend σ} {s s2 : σ}
    (stats : CacheStats) (h1 : idx % pad ≠ 0) (h2 : (idx + 1) % U % pad = 0)
    (hB : B.get ((idx + 1) % U) s = (.notFound, s2)) :
    trackerGet pad B idx stats s = closeOrMiss pad B idx stats s2 := by
  rw [trackerGet, if_neg h1, if_pos h2, hB]

theorem tg_b2_failed {σ : Type} {pad idx : Nat} {B : Backend σ} {s s2 : σ}
    (stats : CacheStats) (h1 : idx % pad ≠ 0) (h2 : (idx + 1) % U % pad = 0)
    (hB : B.get ((idx + 1) % U) s = (.failed, s2)) :
    trackerGet pad B idx stats s = closeOrMiss pad B idx stats s2 := by
  rw [trackerGet, if_neg h1, if_pos h2, hB]

theorem tg_nb {σ : Type} {pad idx : Nat} (B : Backend σ) (stats : CacheStats) (s : σ)
    (h1 : idx % pad ≠ 0) (h2 : (idx + 1) % U % pad ≠ 0) :
    trackerGet pad B idx stats s = closeOrMiss pad B idx stats s := by
  rw [trackerGet, if_neg h1, if_neg h2]

theorem trackerGet_spec {σ : Type} {pad : Nat} {B : Backend σ} {good : σ → Prop}
    (hgetp : ∀ k s p s2, B.get k s = (.found p, s2) → good s → goodPair k p)
    (hgets : ∀ k s, good s → good (B.get k s).2)
    (hset : ∀ k p s, good s → goodPair k p → k % pad = 0 → good (B.set k p s).2)
    (idx : Nat) (stats : CacheStats) (s : σ) (hidx : idx < U) (h : good s) :
    good (trackerGet pad B idx stats s).2.2 ∧
    (idx + 1 < U → (trackerGet pad B idx stats s).1 = fib idx) := by
  by_cases h1 : idx % pad = 0
  · rcases hB : B.get idx s with ⟨res, s2⟩
    have hs2 : good s2 := by
      have := hgets idx s h
      rwa [hB] at this
    cases res with
    | found p =>
      rw [tg_b1_found stats h1 hB]
      exact ⟨hs2, fun _ => (hgetp idx s p s2 hB h).1⟩
    | notFound =>
      rw [tg_b1_notFound stats h1 hB]
      exact closeOrMiss_spec hgetp hgets hset idx stats s2 hidx hs2
    | failed =>
      rw [tg_b1_failed stats h1 hB]
      exact closeOrMiss_spec hgetp hgets hset idx stats s2 hidx hs2
  · by_cases h2 : (idx + 1) % U % pad = 0
    · rcases hB : B.get ((idx + 1) % U) s with ⟨res, s2⟩
      have hs2 : good s2 := by
        have := hgets ((idx + 1) % U) s h
        rwa [hB] at this
      cases res with
      | found p =>
        rw [tg_b2_found stats h1 h2 hB]
        refine ⟨hs2, fun hi => ?_⟩
        have hmod : (idx + 1) % U = idx + 1 := Umod_of_lt hi
        rw [hmod] at hB
        have hg : goodPair (idx + 1) p := hgetp (idx + 1) s p s2 hB h
        exact hg.2
      | notFound =>
        rw [tg_b2_notFound stats h1 h2 hB]
        exact closeOrMiss_spec hgetp hgets hset idx stats s2 hidx hs2
      | failed =>
        rw [tg_b2_failed stats h1 h2 hB]
        exact closeOrMiss_spec hgetp hgets hset idx stats s2 hidx hs2
    · rw [tg_nb B stats s h1 h2]
      exact closeOrMiss_spec hgetp hgets hset idx stats s hidx h

theorem trackerGet_collapse {σ : Type} (pad : Nat) (B : Backend σ) (idx : Nat)
    (stats : CacheStats) (s : σ) :
    trackerGet pad (collapse B) idx stats s = trackerGet pad B idx stats s := by
  by_cases h1 : idx % pad = 0
  · rcases hB : B.get idx s with ⟨res, s2⟩
    cases res with
    | found p =>
      have hC : (collapse B).get idx s = (.found p, s2) := by simp [collapse, hB]
      rw [tg_b1_found stats h1 hB, tg_b1_found stats h1 hC]
    | notFound =>
      have hC : (collapse B).get idx s = (.notFound, s2) := by simp [collapse, hB]
      rw [tg_b1_notFound stats h1 hB, tg_b1_notFound stats h1 hC, closeOrMiss_collapse]
    | failed =>
      have hC : (collapse B).get idx s = (.notFound, s2) := by simp [collapse, hB]
      rw [tg_b1_failed stats h1 hB, tg_b1_notFound stats h1 hC, closeOrMiss_collapse]
  · by_cases h2 : (idx + 1) % U % pad = 0
    · rcases hB : B.get ((idx + 1) % U) s with ⟨res, s2⟩
      cases res with
      | found p =>
        have hC : (collapse B).get ((idx + 1) % U) s = (.found p, s2) := by
          simp [collapse, hB]
        rw [tg_b2_found stats h1 h2 hB, tg_b2_found stats h1 h2 hC]
      | notFound =>
        have hC : (collapse B).get ((idx + 1) % U) s = (.notFound, s2) := by
          simp [collapse, hB]
        rw [tg_b2_notFound stats h1 h2 hB, tg_b2_notFound stats h1 h2 hC,
          closeOrMiss_collapse]
      | failed =>
        have hC : (collapse B).get ((idx + 1) % U) s = (.notFound, s2) := by
          simp [collapse, hB]
        rw [tg_b2_failed stats h1 h2 hB, tg_b2_notFound stats h1 h2 hC,
          closeOrMiss_collapse]
    · rw [tg_nb (collapse B) stats s h1 h2, tg_nb B stats s h1 h2, closeOrMiss_collapse]

theorem scBackend_get_some {c : List scEntry} {k : Nat} {p : fibPair}
    (h : scGet c k = some p) : scBackend.get k c = (.found p, c) := by
  simp [scBackend, h]

theorem scBackend_get_none {c : List scEntry} {k : Nat} (h : scGet c k = none) :
    scBackend.get k c = (.notFound, c) := by
  simp [scBackend, h]

theorem scBackend_get_found {c c2 : List scEntry} {k : Nat} {p : fibPair}
    (h : scBackend.get k c = (.found p, c2)) : scGet c k = some p := by
  cases hg : scGet c k with
  | some q =>
    rw [scBackend_get_some hg] at h
    have hq : q = p := by
      have := congrArg Prod.fst h
      simpa using this
    exact congrArg some hq
  | none =>
    rw [scBackend_get_none hg] at h
    simp at h

theorem scBackend_get_state (k : Nat) (c : List scEntry) : (scBackend.get k c).2 = c := by
  cases hg : scGet c k <;> simp [scBackend, hg]

theorem scBackend_set_eq (k : Nat) (p : fibPair) (c : List scEntry) :
    (scBackend.set k p c).2 = scSet c k p := rfl

theorem scInv_fresh {pad N : Nat} (hN : 0 < N) : scInv pad N (freshCache N) := by
  refine ⟨freshCache_length N, ?_, ?_⟩
  · intro k p h
    rw [scGet_fresh hN] at h
    by_cases hk : k = 0
    · subst hk
      have hp : originPair = p := by simpa using h
      rw [← hp]
      exact goodPair_origin
    · simp [hk] at h
  · intro k p h
    rw [scGet_fresh hN] at h
    by_cases hk : k = 0
    · subst hk
      simp
    · simp [hk] at h

theorem scInv_set {pad N k : Nat} {c : List scEntry} {p : fibPair}
    (hN : 0 < N) (hinv : scInv pad N c) (hp : goodPair k p) (hk : k % pad = 0) :
    scInv pad N (scSet c k p) := by
  obtain ⟨hlen, hgood, halign⟩ := hinv
  have hc : 0 < c.length := by omega
  refine ⟨by rw [scSet_length]; exact hlen, ?_, ?_⟩
  · intro j q h
    rcases scGet_scSet_cases hc h with ⟨h1, h2⟩ | hold
    · subst h1; subst h2; exact hp
    · exact hgood j q hold
  · intro j q h
    rcases scGet_scSet_cases hc h with ⟨h1, h2⟩ | hold
    · subst h1; exact hk
    · exact halign j q hold

theorem sc_hgetp (pad N : Nat) : ∀ k c p c2, scBackend.get k c = (.found p, c2) →
    scInv pad N c → goodPair k p :=
  fun k _ p _ h hinv => hinv.2.1 k p (scBackend_get_found h)

theorem sc_hgets (pad N : Nat) : ∀ k c, scInv pad N c → scInv pad N (scBackend.get k c).2 :=
  fun k c h => by rw [scBackend_get_state]; exact h

theorem sc_hset {N : Nat} (pad : Nat) (hN : 0 < N) :
    ∀ k p c, scInv pad N c → goodPair k p → k % pad = 0 →
      scInv pad N (scBackend.set k p c).2 :=
  fun k p c hinv hp hk => by rw [scBackend_set_eq]; exact scInv_set hN hinv hp hk

theorem scInv_step {pad N : Nat} (hN : 0 < N) (st : CacheStats × List scEntry) (i : Nat)
    (hi : i < U) (h : scInv pad N st.2) : scInv pad N (stepSC pad st i).2 := by
  have hs := (trackerGet_spec (sc_hgetp pad N) (sc_hgets pad N) (sc_hset pad hN) i st.1
    st.2 hi h).1
  simpa [stepSC] using hs

theorem scInv_foldl {pad N : Nat} (hN : 0 < N) :
    ∀ (idxs : List Nat) (st : CacheStats × List scEntry), (∀ i ∈ idxs, i < U) →
      scInv pad N st.2 → scInv pad N (idxs.foldl (stepSC pad) st).2 := by
  intro idxs
  induction idxs with
  | nil => intro st _ h; exact h
  | cons i rest ih =>
    intro st hidxs h
    simp only [List.foldl_cons]
    exact ih (stepSC pad st i) (fun j hj => hidxs j (by simp [hj]))
      (scInv_step hN st i (hidxs i (by simp)) h)

theorem scInv_runGets (pad N : Nat) (idxs : List Nat) (hN : 0 < N)
    (hidxs : ∀ i ∈ idxs, i < U) : scInv pad N (runGets pad N idxs).2 :=
  scInv_foldl hN idxs (zeroStats, freshCache N) hidxs (scInv_fresh hN)

/-- C1 counterexample: on a fresh tracker (pad 2, slice capacity 4),
`Get (2^32 - 1)` does not return the Fibonacci value at `2^32 - 1`:
the `uint32` wrap of `idx + 1` makes the high-member direct-hit branch
probe index 0 and return the origin pair's second member, 1. -/
theorem C1_counterexample_wrap :
    (trackerGet 2 scBackend 4294967295 zeroStats (freshCache 4)).1 ≠ fib 4294967295 := by
  have h1 : (trackerGet 2 scBackend 4294967295 zeroStats (freshCache 4)).1 = 1 := by decide
  have h2 : 2 ≤ fib 4294967295 := two_le_fib (by omega)
  omega

/-- C1 amended: for every index `idx` with `idx + 1 < 2^32` (so the `uint32`
increment `idx+1` cannot wrap), a tracker with positive pad over a slice
cache of positive capacity returns the textbook Fibonacci value at `idx`,
whatever control path serves the request and after any prior `Get` calls. -/
theorem C1_get_correct (pad N idx : Nat) (idxs : List Nat)
    (hpad : 0 < pad) (hN : 0 < N) (hidxs : ∀ i ∈ idxs, i < U) (hidx : idx + 1 < U) :
    (trackerGet pad scBackend idx (runGets pad N idxs).1 (runGets pad N idxs).2).1 =
      fib idx := by
  have hinv := scInv_runGets pad N idxs hN hidxs
  exact (trackerGet_spec (sc_hgetp pad N) (sc_hgets pad N) (sc_hset pad hN) idx
    (runGets pad N idxs).1 (runGets pad N idxs).2 (by omega) hinv).2 hidx

theorem C1_get_correct_witness :
    (0 < 3) ∧ (0 < 5) ∧ (∀ i ∈ [7, 2], i < U) ∧ (10 + 1 < U) ∧
      (trackerGet 3 scBackend 10 (runGets 3 5 [7, 2]).1 (runGets 3 5 [7, 2]).2).1 = fib 10 :=
  ⟨by decide, by decide, by decide, by decide,
    C1_get_correct 3 5 10 [7, 2] (by decide) (by decide) (by decide) (by decide)⟩

/-- C2 counterexample: with pad 2 on a fresh tracker, `Get 4` publishes the
pair `(1, 1)` at index 2, whose second member is not the value at index 3
(`fib 3 = 2`): cached pairs do not hold `(v_i, v_{i+1})`. -/
theorem C2_counterexample_pair_layout :
    scGet (runGets 2 4 [4]).2 2 = some ⟨1, 1⟩ ∧ (1 : Nat) ≠ fib (2 + 1) := by
  decide

/-- C2 amended: every pair the tracker publishes at an index `i` holds the
sequence value at `i` together with the value at `i - 1` (the preceding
term, with `v_{-1} = 1` for the origin entry at index 0), for the initial
origin entry and for every backfilled pair alike. -/
theorem C2_published_pairs (pad N k : Nat) (idxs : List Nat) (p : fibPair)
    (hpad : 0 < pad) (hN : 0 < N) (hidxs : ∀ i ∈ idxs, i < U)
    (h : scGet (runGets pad N idxs).2 k = some p) :
    p.i = fib k ∧ p.j = fibPrev k :=
  (scInv_runGets pad N idxs hN hidxs).2.1 k p h

theorem C2_published_pairs_witness :
    (0 < 2) ∧ (0 < 4) ∧ (∀ i ∈ [4], i < U) ∧
      (scGet (runGets 2 4 [4]).2 4 = some ⟨3, 2⟩) ∧
      ((⟨3, 2⟩ : fibPair).i = fib 4 ∧ (⟨3, 2⟩ : fibPair).j = fibPrev 4) :=
  ⟨by decide, by decide, by decide, by decide,
    C2_published_pairs 2 4 4 [4] ⟨3, 2⟩ (by decide) (by decide) (by decide) (by decide)⟩

/-- C6 counterexample: a backend that fails every operation satisfies the
claim's hypothesis vacuously (it never reports a successful `Get`), yet
`Get (2^32 - 1)` on it returns 1, not the sequence value at `2^32 - 1`:
the claim's unrestricted "still returns the correctly computed sequence
value for idx" fails at the wrap index. -/
theorem C6_counterexample_wrap_idx :
    (trackerGet 2 failBackend 4294967295 zeroStats ()).1 ≠ fib 4294967295 := by
  have h1 : (trackerGet 2 failBackend 4294967295 zeroStats ()).1 = 1 := by decide
  have h2 : 2 ≤ fib 4294967295 := two_le_fib (by omega)
  omega

/-- C6 amended: over any backend whose successful `Get` results are pairs
previously stored on it (the ghost `stored` of `HBackend`, seeded with at
most good pairs such as the origin entry), and for any index below the
`uint32` wrap (`idx + 1 < 2^32`), the tracker returns the correctly
computed sequence value, keeps the store good, and behaves identically to
the backend with every `Get` failure read as not-found and every `Set`
failure ignored. -/
theorem C6_backend_failures_harmless {σ : Type} (HB : HBackend σ) (pad idx : Nat)
    (stats : CacheStats) (s : σ) (hpad : 0 < pad) (hidx : idx + 1 < U)
    (h : goodStored HB s) :
    (trackerGet pad HB.toBackend idx stats s).1 = fib idx ∧
    goodStored HB (trackerGet pad HB.toBackend idx stats s).2.2 ∧
    trackerGet pad (collapse HB.toBackend) idx stats s =
      trackerGet pad HB.toBackend idx stats s := by
  have hgetp : ∀ k s p s2, HB.toBackend.get k s = (.found p, s2) →
      goodStored HB s → goodPair k p :=
    fun k s p s2 hB hg => hg k p (HB.get_found k s p s2 hB)
  have hgets : ∀ k s, goodStored HB s → goodStored HB (HB.toBackend.get k s).2 :=
    fun k s hg k2 p2 hst => hg k2 p2 (HB.get_mono k s k2 p2 hst)
  have hset : ∀ k p s, goodStored HB s → goodPair k p → k % pad = 0 →
      goodStored HB (HB.toBackend.set k p s).2 := by
    intro k p s hg hp _ k2 p2 hst
    rcases HB.set_mono k p s k2 p2 hst with hold | ⟨h1, h2⟩
    · exact hg k2 p2 hold
    · subst h1; subst h2; exact hp
  have hspec := trackerGet_spec hgetp hgets hset idx stats s (by omega) h
  exact ⟨hspec.2 hidx, hspec.1, trackerGet_collapse pad HB.toBackend idx stats s⟩

theorem C6_backend_failures_harmless_witness :
    (0 < 1) ∧ (3 + 1 < U) ∧ goodStored trivHB () ∧
      ((trackerGet 1 trivHB.toBackend 3 zeroStats ()).1 = fib 3 ∧
        goodStored trivHB (trackerGet 1 trivHB.toBackend 3 zeroStats ()).2.2 ∧
        trackerGet 1 (collapse trivHB.toBackend) 3 zeroStats () =
          trackerGet 1 trivHB.toBackend 3 zeroStats ()) :=
  ⟨by decide, by decide, fun _ _ h => h.elim,
    C6_backend_failures_harmless trivHB 1 3 zeroStats () (by decide) (by decide)
      (fun _ _ h => h.elim)⟩

theorem walk_sc_unchanged {pad : Nat} (steps : Nat) : ∀ (i n1 n2 : Nat) (c : List scEntry),
    (∀ m, i ≤ m → m < i + steps → m % pad ≠ 0) →
    (walk pad scBackend i steps n1 n2 c).2.2 = c := by
  induction steps with
  | zero => intro i n1 n2 c _; rfl
  | succ st ih =>
    intro i n1 n2 c h
    rw [walk_succ, if_neg (h i (Nat.le_refl i) (by omega))]
    exact ih (i+1) _ _ c (fun m hm1 hm2 => h m (by omega) (by omega))

theorem walk_sc_last {pad : Nat} (steps : Nat) : ∀ (a : Nat) (c : List scEntry) (m : Nat),
    0 < c.length → m % pad = 0 → a + 1 ≤ m → m ≤ a + steps →
    (∀ m2, m < m2 → m2 ≤ a + steps → m2 % pad ≠ 0) →
    scGet (walk pad scBackend (a+1) steps (fib a) (fibPrev a) c).2.2 m =
      some ⟨fib m, fibPrev m⟩ := by
  induction steps with
  | zero => intro a c m _ _ h1 h2 _; omega
  | succ st ih =>
    intro a c m hc hm h1 h2 hnone
    rw [walk_step_good]
    by_cases he : m = a + 1
    · subst he
      rw [if_pos hm, scBackend_set_eq]
      have hun := walk_sc_unchanged st (a+2) (fib (a+1)) (fibPrev (a+1))
        (scSet c (a+1) ⟨fib (a+1), fibPrev (a+1)⟩)
        (fun m2 ha hb => hnone m2 (by omega) (by omega))
      rw [hun]
      exact scGet_scSet_self hc (a+1) ⟨fib (a+1), fibPrev (a+1)⟩
    · have hm2 : a + 2 ≤ m := by omega
      by_cases hp1 : (a + 1) % pad = 0
      · rw [if_pos hp1, scBackend_set_eq]
        exact ih (a+1) (scSet c (a+1) ⟨fib (a+1), fibPrev (a+1)⟩) m
          (by rw [scSet_length]; exact hc) hm hm2 (by omega)
          (fun m2 ha hb => hnone m2 ha (by omega))
      · rw [if_neg hp1]
        exact ih (a+1) c m hc hm hm2 (by omega) (fun m2 ha hb => hnone m2 ha (by omega))

theorem probeLoop_sc_state (pad idx : Nat) (fuel : Nat) : ∀ (ci : Nat) (c : List scEntry),
    (probeLoop pad scBackend idx ci fuel c).2 = c := by
  induction fuel with
  | zero => intro ci c; rfl
  | succ f ih =>
    intro ci c
    by_cases hg : ci ≤ idx
    · cases hE : scGet c ci with
      | some p => rw [probeLoop_found f hg (scBackend_get_some hE)]
      | none =>
        rw [probeLoop_notFound f hg (scBackend_get_none hE)]
        exact ih _ c
    · rw [probeLoop_gt scBackend f c hg]

theorem probeLoop_sc_found (pad idx : Nat) (fuel : Nat) : ∀ (ci : Nat) (c : List scEntry)
    (a : Nat) (p : fibPair) (c2 : List scEntry),
    probeLoop pad scBackend idx ci fuel c = (some (a, p), c2) →
    scGet c a = some p ∧ a ≤ idx := by
  induction fuel with
  | zero =>
    intro ci c a p c2 h
    rw [probeLoop_zero] at h
    simp at h
  | succ f ih =>
    intro ci c a p c2 h
    by_cases hg : ci ≤ idx
    · cases hE : scGet c ci with
      | some q =>
        rw [probeLoop_found f hg (scBackend_get_some hE)] at h
        have hqa : ci = a ∧ q = p := by
          have h1 := congrArg Prod.fst h
          simpa using h1
        obtain ⟨e1, e2⟩ := hqa
        subst e1; subst e2
        exact ⟨hE, hg⟩
      | none =>
        rw [probeLoop_notFound f hg (scBackend_get_none hE)] at h
        exact ih _ c a p c2 h
    · rw [probeLoop_gt scBackend f c hg] at h
      simp at h

theorem closeOrMiss_anchor {pad N k : Nat} (st : CacheStats) {c : List scEntry}
    (hinv : scInv pad N c) (hN : 0 < N) (hpad : 0 < pad) (hkp : pad ≤ k) (hk1 : k + 1 < U) :
    scGet (closeOrMiss pad scBackend k st c).2.2 (k - k % pad) =
      some ⟨fib (k - k % pad), fibPrev (k - k % pad)⟩ := by
  obtain ⟨hlen, hgood, halign⟩ := hinv
  have hc : 0 < c.length := by omega
  have hrdle : k - k % pad ≤ k := by omega
  have hrdmod : (k - k % pad) % pad = 0 := rd_mod pad k
  have hmodlt : k % pad < pad := Nat.mod_lt _ hpad
  have hrdge : pad ≤ k - k % pad := mult_le_rd hpad (Nat.mod_self pad) hkp
  have hnomult : ∀ m2, k - k % pad < m2 → m2 ≤ k → m2 % pad ≠ 0 := by
    intro m2 hgt hle hm2
    have := mult_gap hpad hrdmod hm2 hgt
    omega
  rcases hP : probeLoop pad scBackend k (roundDownToPad pad k) 10 c with ⟨r, c2⟩
  have hc2 : c2 = c := by
    have hst := probeLoop_sc_state pad k 10 (roundDownToPad pad k) c
    rw [hP] at hst
    exact hst
  rw [hc2] at hP
  cases r with
  | some ap =>
    rcases ap with ⟨a, p⟩
    obtain ⟨hap, hak⟩ := probeLoop_sc_found pad k 10 _ c a p c hP
    have hgap : goodPair a p := hgood a p hap
    have hamod : a % pad = 0 := halign a p hap
    have hard : a ≤ k - k % pad := mult_le_rd hpad hamod hak
    have hpi : p.i = fib a := hgap.1
    have hpj : p.j = fibPrev a := hgap.2
    rcases Nat.eq_or_lt_of_le hak with hek | hlk
    · subst hek
      have hstate : (closeOrMiss pad scBackend a st c).2.2 = c := by
        rw [closeOrMiss_found st hP, cfp_self]
      rw [hstate, hamod, Nat.sub_zero, hap]
      exact congrArg some (goodPair_ext hgap)
    · rcases Nat.eq_or_lt_of_le hard with herd | hlrd
      · have hstate : (closeOrMiss pad scBackend k st c).2.2 = c := by
          rw [closeOrMiss_found st hP, cfp_lt pad scBackend p c hlk hk1, hpi, hpj,
            walk_sc_unchanged (k - a) (a+1) (fib a) (fibPrev a) c
              (fun m2 ha hb => hnomult m2 (by omega) (by omega))]
        rw [hstate, ← herd, hap]
        exact congrArg some (goodPair_ext hgap)
      · have hlast := walk_sc_last (k - a) a c (k - k % pad) hc hrdmod (by omega) (by omega)
          (fun m2 ha hb => hnomult m2 ha (by omega))
        have hstate : (closeOrMiss pad scBackend k st c).2.2 =
            (walk pad scBackend (a+1) (k - a) (fib a) (fibPrev a) c).2.2 := by
          rw [closeOrMiss_found st hP, cfp_lt pad scBackend p c hlk hk1, hpi, hpj]
        rw [hstate, hlast]
  | none =>
    have h0k : 0 < k := by omega
    have hstate : (closeOrMiss pad scBackend k st c).2.2 =
        (walk pad scBackend (0+1) (k - 0) (fib 0) (fibPrev 0) c).2.2 := by
      rw [closeOrMiss_none st hP, calcFromZero, cfp_lt pad scBackend ⟨0, 1⟩ c h0k hk1]
      rfl
    rw [hstate]
    exact walk_sc_last (k - 0) 0 c (k - k % pad) hc hrdmod (by omega) (by omega)
      (fun m2 ha hb => hnomult m2 ha (by omega))

theorem MakeSliceCache_pos {N : Nat} (hN : 0 < N) :
    MakeSliceCache ((N : Int)) = .ok (freshCache N) none := by
  unfold MakeSliceCache
  rw [if_neg (by omega)]
  show (if 0 < (zeroEntries ((N : Int)).toNat).length then
      MakeSliceResult.ok ((zeroEntries ((N : Int)).toNat).set 0 ⟨0, originPair⟩) none
    else .panicked) = .ok (freshCache N) none
  rw [show ((N : Int)).toNat = N from rfl,
    if_pos (by rw [zeroEntries_length]; omega)]
  rfl

theorem probeLoop_fresh {pad idx N : Nat} (hN : 0 < N) (fuel : Nat) : ∀ (ci : Nat),
    probeLoop pad scBackend idx ci fuel (freshCache N) = (none, freshCache N) ∨
    (0 ≤ idx ∧
      probeLoop pad scBackend idx ci fuel (freshCache N) =
        (some (0, originPair), freshCache N)) := by
  induction fuel with
  | zero => intro ci; left; rfl
  | succ f ih =>
    intro ci
    by_cases hg : ci ≤ idx
    · by_cases h0 : ci = 0
      · subst h0
        right
        refine ⟨Nat.zero_le idx, ?_⟩
        exact probeLoop_found f hg (scBackend_get_some (by rw [scGet_fresh hN]; simp))
      · rw [probeLoop_notFound f hg (scBackend_get_none (by rw [scGet_fresh hN]; simp [h0]))]
        exact ih _
    · left
      exact probeLoop_gt scBackend f (freshCache N) hg

/-- C10 counterexample: with cachePad 3 (which divides `2^32 - 1`), the call
`Get (2^32 - 1)` on a fresh tracker still returns 1, but it is served by the
from-zero miss path, not by the high-member direct-hit branch the claim
describes (the direct-hit counter stays 0 and the miss counter becomes 1). -/
theorem C10_counterexample_pad_three :
    (trackerGet 3 scBackend 4294967295 zeroStats (freshCache 4)).1 = 1 ∧
    (trackerGet 3 scBackend 4294967295 zeroStats (freshCache 4)).2.1 =
      ⟨0, 0, 1⟩ := by
  decide

/-- C10 amended: on a fresh tracker over a slice cache, `Get (2^32 - 1)`
returns the origin pair's second member 1 — not the Fibonacci value at
`2^32 - 1` — for every positive pad; and whenever the pad does not divide
`2^32 - 1`, it is served by the high-member direct-hit branch (the wrapped
probe at index 0 finds the origin entry, the direct counter is bumped, and
the cache is untouched). -/
theorem C10_wrap_returns_origin (pad N : Nat) (hpad : 0 < pad) (hN : 0 < N) :
    MakeSliceCache ((N : Int)) = .ok (freshCache N) none ∧
    (trackerGet pad scBackend (U - 1) zeroStats (freshCache N)).1 = originPair.j ∧
    originPair.j = 1 ∧ fib (U - 1) ≠ 1 ∧
    ((U - 1) % pad ≠ 0 →
      trackerGet pad scBackend (U - 1) zeroStats (freshCache N) =
        (originPair.j, bumpDirect zeroStats, freshCache N)) := by
  have hfib : 2 ≤ fib (U - 1) := two_le_fib (by decide)
  have hU1 : (U - 1 : Nat) ≠ 0 := by decide
  refine ⟨MakeSliceCache_pos hN, ?_⟩
  by_cases hm : (U - 1) % pad = 0
  · have hE : scGet (freshCache N) (U - 1) = none := by
      rw [scGet_fresh hN, if_neg hU1]
    have htg : trackerGet pad scBackend (U - 1) zeroStats (freshCache N) =
        closeOrMiss pad scBackend (U - 1) zeroStats (freshCache N) :=
      tg_b1_notFound zeroStats hm (scBackend_get_none hE)
    rcases probeLoop_fresh hN 10 (roundDownToPad pad (U - 1)) with hP | ⟨_, hP⟩
    · have hcm := closeOrMiss_none zeroStats hP
      rw [htg, hcm, calcFromZero, cfp_wrap_top]
      exact ⟨rfl, rfl, by omega, fun hcon => absurd hm hcon⟩
    · have hcm := closeOrMiss_found zeroStats hP
      rw [htg, hcm, cfp_wrap_top]
      exact ⟨rfl, rfl, by omega, fun hcon => absurd hm hcon⟩
  · have h2 : (U - 1 + 1) % U % pad = 0 := by
      rw [show U - 1 + 1 = U by decide, Nat.mod_self, Nat.zero_mod]
    have hB : scBackend.get ((U - 1 + 1) % U) (freshCache N) =
        (.found originPair, freshCache N) := by
      rw [show (U - 1 + 1) % U = 0 by decide]
      exact scBackend_get_some (by rw [scGet_fresh hN]; simp)
    have htg := tg_b2_found zeroStats hm h2 hB
    rw [htg]
    exact ⟨rfl, rfl, by omega, fun _ => rfl⟩

theorem C10_wrap_returns_origin_witness :
    (0 < 2) ∧ (0 < 4) ∧
      (MakeSliceCache (((4 : Nat) : Int)) = .ok (freshCache 4) none ∧
        (trackerGet 2 scBackend (U - 1) zeroStats (freshCache 4)).1 = originPair.j ∧
        originPair.j = 1 ∧ fib (U - 1) ≠ 1 ∧
        ((U - 1) % 2 ≠ 0 →
          trackerGet 2 scBackend (U - 1) zeroStats (freshCache 4) =
            (originPair.j, bumpDirect zeroStats, freshCache 4))) :=
  ⟨by decide, by decide, C10_wrap_returns_origin 2 4 (by decide) (by decide)⟩

/-- C3 counterexample: `2^32 - 1` is a nonzero multiple of cachePad 3, yet
after `Get (2^32 - 1)` on a fresh tracker the direct cache probe at that
index reports not found — the backfill loop's wrapped bound `idx + 1 = 0`
prevents any write. -/
theorem C3_counterexample_wrap_multiple :
    (4294967295 % 3 = 0) ∧ (4294967295 ≠ 0) ∧
    scGet ((trackerGet 3 scBackend 4294967295 zeroStats (freshCache 4)).2.2)
      4294967295 = none := by
  decide

theorem C3_core {pad N k : Nat} (st : CacheStats) {c : List scEntry}
    (hinv : scInv pad N c) (hN : 0 < N) (hpad : 0 < pad) (hk0 : k ≠ 0)
    (hkm : k % pad = 0) (hk1 : k + 1 < U) :
    scGet (trackerGet pad scBackend k st c).2.2 k = some ⟨fib k, fibPrev k⟩ := by
  have hkp : pad ≤ k := by
    rcases Nat.lt_or_ge k pad with h | h
    · have := Nat.mod_eq_of_lt h
      omega
    · exact h
  cases hE : scGet c k with
  | some p =>
    rw [tg_b1_found st hkm (scBackend_get_some hE)]
    rw [hE]
    exact congrArg some (goodPair_ext (hinv.2.1 k p hE))
  | none =>
    rw [tg_b1_notFound st hkm (scBackend_get_none hE)]
    have := closeOrMiss_anchor st hinv hN hpad hkp hk1
    rwa [hkm, Nat.sub_zero] at this

/-- C3 amended: for every index `k` that is a nonzero multiple of the pad
with `k + 1 < 2^32` (no `uint32` wrap of the backfill bound), after any
single `Get k` — whatever cache state earlier tracker calls produced —
a direct probe at `k` reports found with a pair whose first member is the
Fibonacci value at `k`. -/
theorem C3_pad_multiple_cached (pad N k : Nat) (idxs : List Nat)
    (hpad : 0 < pad) (hN : 0 < N) (hidxs : ∀ i ∈ idxs, i < U)
    (hk0 : k ≠ 0) (hkm : k % pad = 0) (hk1 : k + 1 < U) :
    scGet (trackerGet pad scBackend k (runGets pad N idxs).1 (runGets pad N idxs).2).2.2
      k = some ⟨fib k, fibPrev k⟩ :=
  C3_core (runGets pad N idxs).1 (scInv_runGets pad N idxs hN hidxs) hN hpad hk0 hkm hk1

theorem C3_pad_multiple_cached_witness :
    (0 < 3) ∧ (0 < 4) ∧ (∀ i ∈ ([] : List Nat), i < U) ∧ (6 ≠ 0) ∧ (6 % 3 = 0) ∧
      (6 + 1 < U) ∧
      scGet (trackerGet 3 scBackend 6 (runGets 3 4 []).1 (runGets 3 4 []).2).2.2 6 =
        some ⟨fib 6, fibPrev 6⟩ :=
  ⟨by decide, by decide, by decide, by decide, by decide, by decide,
    C3_pad_multiple_cached 3 4 6 [] (by decide) (by decide) (by decide) (by decide)
      (by decide) (by decide)⟩

theorem tg_after_anchor {pad N k : Nat} (st : CacheStats) {c : List scEntry}
    (hinv : scInv pad N c) (hN : 0 < N) (hpad : 0 < pad) (hkp : pad ≤ k)
    (hk1 : k + 1 < U) :
    scGet (trackerGet pad scBackend k st c).2.2 (k - k % pad) ≠ none ∨
    (k % pad ≠ 0 ∧ (k + 1) % pad = 0 ∧
      scGet (trackerGet pad scBackend k st c).2.2 (k + 1) ≠ none) := by
  by_cases h1 : k % pad = 0
  · cases hE : scGet c k with
    | some p =>
      left
      rw [tg_b1_found st h1 (scBackend_get_some hE)]
      rw [h1, Nat.sub_zero]
      show scGet c k ≠ none
      rw [hE]
      simp
    | none =>
      left
      rw [tg_b1_notFound st h1 (scBackend_get_none hE)]
      rw [closeOrMiss_anchor st hinv hN hpad hkp hk1]
      simp
  · by_cases h2 : (k + 1) % pad = 0
    · have h2u : (k + 1) % U % pad = 0 := by rw [Umod_of_lt hk1]; exact h2
      cases hE : scGet c (k + 1) with
      | some p =>
        right
        have hB : scBackend.get ((k + 1) % U) c = (.found p, c) := by
          rw [Umod_of_lt hk1]
          exact scBackend_get_some hE
        rw [tg_b2_found st h1 h2u hB]
        refine ⟨h1, h2, ?_⟩
        show scGet c (k + 1) ≠ none
        rw [hE]
        simp
      | none =>
        left
        have hB : scBackend.get ((k + 1) % U) c = (.notFound, c) := by
          rw [Umod_of_lt hk1]
          exact scBackend_get_none hE
        rw [tg_b2_notFound st h1 h2u hB]
        rw [closeOrMiss_anchor st hinv hN hpad hkp hk1]
        simp
    · have h2u : (k + 1) % U % pad ≠ 0 := by rw [Umod_of_lt hk1]; exact h2
      left
      rw [tg_nb scBackend st c h1 h2u]
      rw [closeOrMiss_anchor st hinv hN hpad hkp hk1]
      simp

theorem tg_second_hit {pad k : Nat} (st : CacheStats) {c : List scEntry}
    (hkp : pad ≤ k) (hk1 : k + 1 < U)
    (H : scGet c (k - k % pad) ≠ none ∨
      (k % pad ≠ 0 ∧ (k + 1) % pad = 0 ∧ scGet c (k + 1) ≠ none)) :
    (trackerGet pad scBackend k st c).2.1.NMiss = st.NMiss ∧
    (trackerGet pad scBackend k st c).2.1.NDirectHit +
        (trackerGet pad scBackend k st c).2.1.NCloseHit =
      st.NDirectHit + st.NCloseHit + 1 := by
  have hrdle : k - k % pad ≤ k := Nat.sub_le _ _
  by_cases h1 : k % pad = 0
  · have hL : scGet c k ≠ none := by
      rcases H with hL | ⟨hc1, _, _⟩
      · rwa [h1, Nat.sub_zero] at hL
      · exact absurd h1 hc1
    cases hE : scGet c k with
    | none => exact absurd hE hL
    | some p =>
      rw [tg_b1_found st h1 (scBackend_get_some hE)]
      refine ⟨rfl, ?_⟩
      show st.NDirectHit + 1 + st.NCloseHit = st.NDirectHit + st.NCloseHit + 1
      omega
  · have hrd : roundDownToPad pad k = k - k % pad := roundDownToPad_eq pad k
    have hclose : ∀ st2 : CacheStats, scGet c (k - k % pad) ≠ none →
        (closeOrMiss pad scBackend k st2 c).2.1 = bumpClose st2 := by
      intro st2 hL
      cases hE : scGet c (k - k % pad) with
      | none => exact absurd hE hL
      | some p =>
        have hPL : probeLoop pad scBackend k (roundDownToPad pad k) 10 c =
            (some (k - k % pad, p), c) := by
          rw [hrd]
          exact probeLoop_found 9 hrdle (scBackend_get_some hE)
        rw [closeOrMiss_found st2 hPL]
    by_cases h2 : (k + 1) % pad = 0
    · have h2u : (k + 1) % U % pad = 0 := by rw [Umod_of_lt hk1]; exact h2
      cases hE : scGet c (k + 1) with
      | some p =>
        have hB : scBackend.get ((k + 1) % U) c = (.found p, c) := by
          rw [Umod_of_lt hk1]
          exact scBackend_get_some hE
        rw [tg_b2_found st h1 h2u hB]
        refine ⟨rfl, ?_⟩
        show st.NDirectHit + 1 + st.NCloseHit = st.NDirectHit + st.NCloseHit + 1
        omega
      | none =>
        have hL : scGet c (k - k % pad) ≠ none := by
          rcases H with hL | ⟨_, _, hcon⟩
          · exact hL
          · rw [hE] at hcon
            exact absurd rfl hcon
        have hB : scBackend.get ((k + 1) % U) c = (.notFound, c) := by
          rw [Umod_of_lt hk1]
          exact scBackend_get_none hE
        rw [tg_b2_notFound st h1 h2u hB, hclose st hL]
        refine ⟨rfl, ?_⟩
        show st.NDirectHit + (st.NCloseHit + 1) = st.NDirectHit + st.NCloseHit + 1
        omega
    · have h2u : (k + 1) % U % pad ≠ 0 := by rw [Umod_of_lt hk1]; exact h2
      have hL : scGet c (k - k % pad) ≠ none := by
        rcases H with hL | ⟨_, hcon, _⟩
        · exact hL
        · exact absurd hcon h2
      rw [tg_nb scBackend st c h1 h2u, hclose st hL]
      refine ⟨rfl, ?_⟩
      show st.NDirectHit + (st.NCloseHit + 1) = st.NDirectHit + st.NCloseHit + 1
      omega

/-- C7 counterexample: pad 3, capacity 2, after `Get 8` (whose backfill at
index 6 evicts the origin entry from slot 0), two consecutive calls
`Get 1; Get 1` both take the from-zero miss path: the second identical
call increments the miss counter (1 to 2), not a hit counter. -/
theorem C7_counterexample_repeat_miss :
    (trackerGet 3 scBackend 1
        (trackerGet 3 scBackend 1 (runGets 3 2 [8]).1 (runGets 3 2 [8]).2).2.1
        (trackerGet 3 scBackend 1 (runGets 3 2 [8]).1 (runGets 3 2 [8]).2).2.2).2.1.NMiss =
      2 ∧
    (trackerGet 3 scBackend 1 (runGets 3 2 [8]).1 (runGets 3 2 [8]).2).2.1.NMiss = 1 := by
  decide

/-- C7 amended: for every `k` with `cachePad ≤ k` and `k + 1 < 2^32`, two
consecutive `Get k` calls (after any prior calls) return the same value, and
the second call increments the direct-hit or close-hit counter, never the
miss counter.  (For `k < cachePad` the origin anchor can have been evicted,
making both calls miss, and at `k = 2^32 - 1` the backfill never runs.) -/
theorem C7_second_get_hits (pad N k : Nat) (idxs : List Nat)
    (hpad : 0 < pad) (hN : 0 < N) (hidxs : ∀ i ∈ idxs, i < U)
    (hkp : pad ≤ k) (hk1 : k + 1 < U) :
    (trackerGet pad scBackend k
        (trackerGet pad scBackend k (runGets pad N idxs).1 (runGets pad N idxs).2).2.1
        (trackerGet pad scBackend k (runGets pad N idxs).1 (runGets pad N idxs).2).2.2).1 =
      (trackerGet pad scBackend k (runGets pad N idxs).1 (runGets pad N idxs).2).1 ∧
    (trackerGet pad scBackend k
        (trackerGet pad scBackend k (runGets pad N idxs).1 (runGets pad N idxs).2).2.1
        (trackerGet pad scBackend k (runGets pad N idxs).1
          (runGets pad N idxs).2).2.2).2.1.NMiss =
      (trackerGet pad scBackend k (runGets pad N idxs).1
        (runGets pad N idxs).2).2.1.NMiss ∧
    (trackerGet pad scBackend k
        (trackerGet pad scBackend k (runGets pad N idxs).1 (runGets pad N idxs).2).2.1
        (trackerGet pad scBackend k (runGets pad N idxs).1
          (runGets pad N idxs).2).2.2).2.1.NDirectHit +
      (trackerGet pad scBackend k
        (trackerGet pad scBackend k (runGets pad N idxs).1 (runGets pad N idxs).2).2.1
        (trackerGet pad scBackend k (runGets pad N idxs).1
          (runGets pad N idxs).2).2.2).2.1.NCloseHit =
      (trackerGet pad scBackend k (runGets pad N idxs).1
        (runGets pad N idxs).2).2.1.NDirectHit +
      (trackerGet pad scBackend k (runGets pad N idxs).1
        (runGets pad N idxs).2).2.1.NCloseHit + 1 := by
  have hinv := scInv_runGets pad N idxs hN hidxs
  have hspec1 := trackerGet_spec (sc_hgetp pad N) (sc_hgets pad N) (sc_hset pad hN) k
    (runGets pad N idxs).1 (runGets pad N idxs).2 (by omega) hinv
  have hspec2 := trackerGet_spec (sc_hgetp pad N) (sc_hgets pad N) (sc_hset pad hN) k
    (trackerGet pad scBackend k (runGets pad N idxs).1 (runGets pad N idxs).2).2.1
    (trackerGet pad scBackend k (runGets pad N idxs).1 (runGets pad N idxs).2).2.2
    (by omega) hspec1.1
  have hH := tg_after_anchor (runGets pad N idxs).1 hinv hN hpad hkp hk1
  have hsecond := tg_second_hit
    (trackerGet pad scBackend k (runGets pad N idxs).1 (runGets pad N idxs).2).2.1
    hkp hk1 hH
  refine ⟨?_, hsecond.1, hsecond.2⟩
  rw [hspec1.2 hk1, hspec2.2 hk1]

theorem C7_second_get_hits_witness :
    (0 < 2) ∧ (0 < 4) ∧ (∀ i ∈ ([] : List Nat), i < U) ∧ (2 ≤ 5) ∧ (5 + 1 < U) ∧
      ((trackerGet 2 scBackend 5
          (trackerGet 2 scBackend 5 (runGets 2 4 []).1 (runGets 2 4 []).2).2.1
          (trackerGet 2 scBackend 5 (runGets 2 4 []).1 (runGets 2 4 []).2).2.2).1 =
        (trackerGet 2 scBackend 5 (runGets 2 4 []).1 (runGets 2 4 []).2).1 ∧
      (trackerGet 2 scBackend 5
          (trackerGet 2 scBackend 5 (runGets 2 4 []).1 (runGets 2 4 []).2).2.1
          (trackerGet 2 scBackend 5 (runGets 2 4 []).1
            (runGets 2 4 []).2).2.2).2.1.NMiss =
        (trackerGet 2 scBackend 5 (runGets 2 4 []).1 (runGets 2 4 []).2).2.1.NMiss ∧
      (trackerGet 2 scBackend 5
          (trackerGet 2 scBackend 5 (runGets 2 4 []).1 (runGets 2 4 []).2).2.1
          (trackerGet 2 scBackend 5 (runGets 2 4 []).1
            (runGets 2 4 []).2).2.2).2.1.NDirectHit +
        (trackerGet 2 scBackend 5
          (trackerGet 2 scBackend 5 (runGets 2 4 []).1 (runGets 2 4 []).2).2.1
          (trackerGet 2 scBackend 5 (runGets 2 4 []).1
            (runGets 2 4 []).2).2.2).2.1.NCloseHit =
        (trackerGet 2 scBackend 5 (runGets 2 4 []).1
          (runGets 2 4 []).2).2.1.NDirectHit +
        (trackerGet 2 scBackend 5 (runGets 2 4 []).1
          (runGets 2 4 []).2).2.1.NCloseHit + 1) :=
  ⟨by decide, by decide, by decide, by decide, by decide,
    C7_second_get_hits 2 4 5 [] (by decide) (by decide) (by decide) (by decide)
      (by decide)⟩

theorem succ_mod_cases {pad : Nat} (n : Nat) (hpad : 0 < pad) :
    ((n + 1) % pad = n % pad + 1 ∧ n % pad + 1 < pad) ∨
    ((n + 1) % pad = 0 ∧ n % pad + 1 = pad) := by
  have hlt : n % pad < pad := Nat.mod_lt _ hpad
  have h1 : (n + 1) % pad = (n % pad + 1) % pad := by
    conv_lhs =>
      rw [show n + 1 = pad * (n / pad) + (n % pad + 1) by
        have := Nat.div_add_mod n pad
        omega]
    rw [Nat.mul_add_mod]
  rcases Nat.lt_or_ge (n % pad + 1) pad with h2 | h2
  · left
    exact ⟨by rw [h1, Nat.mod_eq_of_lt h2], h2⟩
  · right
    have he : n % pad + 1 = pad := by omega
    refine ⟨?_, he⟩
    rw [h1, he, Nat.mod_self]

theorem walk_sc_cases {pad : Nat} (steps : Nat) : ∀ (a : Nat) (c : List scEntry)
    (j : Nat) (q : fibPair), 0 < c.length →
    scGet (walk pad scBackend (a+1) steps (fib a) (fibPrev a) c).2.2 j = some q →
    scGet c j = some q ∨ (a + 1 ≤ j ∧ j ≤ a + steps) := by
  induction steps with
  | zero =>
    intro a c j q _ h
    rw [walk_zero] at h
    exact Or.inl h
  | succ st ih =>
    intro a c j q hc h
    rw [walk_step_good] at h
    by_cases hp1 : (a + 1) % pad = 0
    · rw [if_pos hp1, scBackend_set_eq] at h
      rcases ih (a+1) _ j q (by rw [scSet_length]; exact hc) h with hold | ⟨h1, h2⟩
      · rcases scGet_scSet_cases hc hold with ⟨e1, e2⟩ | hc2
        · right
          omega
        · exact Or.inl hc2
      · right
        omega
    · rw [if_neg hp1] at h
      rcases ih (a+1) c j q hc h with hold | ⟨h1, h2⟩
      · exact Or.inl hold
      · right
        omega

theorem C8_step {pad N n : Nat} (st : CacheStats) {c : List scEntry}
    (hpad : 0 < pad) (hpU : pad < U) (hN : 0 < N) (hn1 : n + 1 < U)
    (hinv : scInv pad N c)
    (hbnd : ∀ j p, scGet c j = some p → j ≤ n - n % pad)
    (hanc : scGet c (n - n % pad) ≠ none) :
    (trackerGet pad scBackend (n+1) st c).2.1.NMiss = st.NMiss ∧
    (∀ j p, scGet (trackerGet pad scBackend (n+1) st c).2.2 j = some p →
      j ≤ (n+1) - (n+1) % pad) ∧
    (n + 2 < U →
      scGet (trackerGet pad scBackend (n+1) st c).2.2 ((n+1) - (n+1) % pad) ≠ none) := by
  have hc : 0 < c.length := by
    have := hinv.1
    omega
  have hrdle : n - n % pad ≤ n := Nat.sub_le _ _
  have hmle : n % pad ≤ n := Nat.mod_le n pad
  have hmlt : n % pad < pad := Nat.mod_lt _ hpad
  have hrmod : (n - n % pad) % pad = 0 := rd_mod pad n
  cases hA : scGet c (n - n % pad) with
  | none => exact absurd hA hanc
  | some q =>
  have hq : q = ⟨fib (n - n % pad), fibPrev (n - n % pad)⟩ :=
    goodPair_ext (hinv.2.1 _ q hA)
  rcases succ_mod_cases n hpad with ⟨hm1, hm2⟩ | ⟨hm1, hm2⟩
  · -- (n+1) % pad = n % pad + 1 : same pad block, close or direct, state unchanged
    have hmA : (n + 1) % pad ≠ 0 := by omega
    have hrdeq : (n + 1) - (n + 1) % pad = n - n % pad := by omega
    have hP : probeLoop pad scBackend (n+1) (roundDownToPad pad (n+1)) 10 c =
        (some (n - n % pad, q), c) := by
      rw [roundDownToPad_eq, hrdeq]
      exact probeLoop_found 9 (by omega) (scBackend_get_some hA)
    have hstate : (closeOrMiss pad scBackend (n+1) st c).2.2 = c := by
      by_cases htop : n + 2 < U
      · rw [closeOrMiss_found st hP, cfp_lt pad scBackend q c (by omega) (by omega), hq]
        apply walk_sc_unchanged
        intro m hma hmb hmm
        have hgap := mult_gap hpad hrmod hmm (by omega)
        omega
      · rw [closeOrMiss_found st hP, show n + 1 = U - 1 by omega, cfp_state_top]
    have hmiss : (closeOrMiss pad scBackend (n+1) st c).2.1 = bumpClose st := by
      rw [closeOrMiss_found st hP]
    by_cases hb2 : (n + 1 + 1) % U % pad = 0
    · cases hE2 : scGet c ((n + 1 + 1) % U) with
      | some p =>
        rw [tg_b2_found st hmA hb2 (scBackend_get_some hE2)]
        refine ⟨rfl, ?_, fun _ => ?_⟩
        · intro j p2 hj
          rw [hrdeq]
          exact hbnd j p2 hj
        · rw [hrdeq]
          show scGet c (n - n % pad) ≠ none
          rw [hA]
          simp
      | none =>
        rw [tg_b2_notFound st hmA hb2 (scBackend_get_none hE2)]
        refine ⟨?_, ?_, fun _ => ?_⟩
        · rw [hmiss]
          rfl
        · intro j p2 hj
          rw [hstate] at hj
          rw [hrdeq]
          exact hbnd j p2 hj
        · rw [hrdeq, hstate, hA]
          simp
    · rw [tg_nb scBackend st c hmA hb2]
      refine ⟨?_, ?_, fun _ => ?_⟩
      · rw [hmiss]
        rfl
      · intro j p2 hj
        rw [hstate] at hj
        rw [hrdeq]
        exact hbnd j p2 hj
      · rw [hrdeq, hstate, hA]
        simp
  · -- (n+1) % pad = 0 : new pad block; close hit via the previous anchor
    have hpadle : pad ≤ n + 1 := by omega
    have hrdval : n - n % pad = n + 1 - pad := by omega
    have hEn1 : scGet c (n + 1) = none := by
      cases hE : scGet c (n + 1) with
      | some p =>
        have := hbnd (n+1) p hE
        omega
      | none => rfl
    have hB1 : scBackend.get (n + 1) c = (.notFound, c) := scBackend_get_none hEn1
    have hrd10 : roundDownToPad pad (n + 1) = n + 1 := by
      rw [roundDownToPad_eq, hm1, Nat.sub_zero]
    have hP : probeLoop pad scBackend (n+1) (roundDownToPad pad (n+1)) 10 c =
        (some (n - n % pad, q), c) := by
      rw [hrd10]
      have h1 : probeLoop pad scBackend (n+1) (n+1) 10 c =
          probeLoop pad scBackend (n+1) ((n + 1 + (U - pad)) % U) 9 c :=
        probeLoop_notFound 9 (Nat.le_refl _) hB1
      rw [h1, subU_mod hpadle (by omega) (by omega), ← hrdval]
      exact probeLoop_found 8 (by omega) (scBackend_get_some hA)
    rw [tg_b1_notFound st hm1 hB1]
    by_cases htop : n + 2 < U
    · have hstateB : (closeOrMiss pad scBackend (n+1) st c).2.2 =
          (walk pad scBackend ((n - n % pad) + 1) ((n + 1) - (n - n % pad))
            (fib (n - n % pad)) (fibPrev (n - n % pad)) c).2.2 := by
        rw [closeOrMiss_found st hP, cfp_lt pad scBackend q c (by omega) (by omega), hq]
      refine ⟨?_, ?_, fun _ => ?_⟩
      · rw [closeOrMiss_found st hP]
        rfl
      · intro j p2 hj
        rw [hstateB] at hj
        rw [hm1, Nat.sub_zero]
        rcases walk_sc_cases ((n + 1) - (n - n % pad)) (n - n % pad) c j p2 hc hj with
          hold | ⟨h1, h2⟩
        · have := hbnd j p2 hold
          omega
        · omega
      · rw [hm1, Nat.sub_zero, hstateB]
        have hlast := walk_sc_last ((n + 1) - (n - n % pad)) (n - n % pad) c (n + 1) hc
          hm1 (by omega) (by omega) (fun m2 hma hmb => absurd hmb (by omega))
        rw [hlast]
        simp
    · have hstateC : (closeOrMiss pad scBackend (n+1) st c).2.2 = c := by
        rw [closeOrMiss_found st hP, show n + 1 = U - 1 by omega, cfp_state_top]
      refine ⟨?_, ?_, fun htop2 => absurd htop2 htop⟩
      · rw [closeOrMiss_found st hP]
        rfl
      · intro j p2 hj
        rw [hstateC] at hj
        have := hbnd j p2 hj
        rw [hm1, Nat.sub_zero]
        omega

theorem runUpTo_inv (pad N : Nat) (hpad : 0 < pad) (hpU : pad < U) (hN : 0 < N) :
    ∀ k, k < U →
      scInv pad N (runUpTo pad N k).2 ∧
      (∀ j p, scGet (runUpTo pad N k).2 j = some p → j ≤ k - k % pad) ∧
      (k + 1 < U → scGet (runUpTo pad N k).2 (k - k % pad) ≠ none) ∧
      (runUpTo pad N k).1.NMiss = 0 := by
  intro k
  induction k with
  | zero =>
    intro _
    have h0 : trackerGet pad scBackend 0 zeroStats (freshCache N) =
        (originPair.i, bumpDirect zeroStats, freshCache N) :=
      tg_b1_found zeroStats (Nat.zero_mod pad)
        (scBackend_get_some (by rw [scGet_fresh hN]; simp))
    have hs : runUpTo pad N 0 = (bumpDirect zeroStats, freshCache N) := by
      show stepSC pad (zeroStats, freshCache N) 0 = _
      unfold stepSC
      rw [h0]
    rw [hs]
    refine ⟨scInv_fresh hN, ?_, ?_, rfl⟩
    · intro j p h
      rw [scGet_fresh hN] at h
      by_cases hj : j = 0
      · omega
      · rw [if_neg hj] at h
        simp at h
    · intro _
      rw [Nat.zero_sub, scGet_fresh hN]
      simp
  | succ n ih =>
    intro hk1
    obtain ⟨hinv, hbnd, hanc, hm0⟩ := ih (by omega)
    have hancx := hanc (by omega)
    have hstep := C8_step (runUpTo pad N n).1 hpad hpU hN hk1 hinv hbnd hancx
    have hs : runUpTo pad N (n+1) =
        ((trackerGet pad scBackend (n+1) (runUpTo pad N n).1 (runUpTo pad N n).2).2.1,
          (trackerGet pad scBackend (n+1) (runUpTo pad N n).1 (runUpTo pad N n).2).2.2) := by
      show stepSC pad (runUpTo pad N n) (n+1) = _
      unfold stepSC
      rfl
    rw [hs]
    refine ⟨?_, hstep.2.1, hstep.2.2, ?_⟩
    · have hnext := scInv_step hN (runUpTo pad N n) (n+1) (by omega) hinv
      simpa [stepSC] using hnext
    · show (trackerGet pad scBackend (n+1) (runUpTo pad N n).1
        (runUpTo pad N n).2).2.1.NMiss = 0
      rw [hstep.1, hm0]

/-- C8: starting from a freshly constructed tracker, the sequential call
sequence `Get 0, Get 1, ..., Get M` never takes the from-zero miss path at
all — the miss counter is still 0 after every prefix of the sequence, so in
particular no call `Get k` with `k ≥ cachePad` ever increments it. -/
theorem C8_sequential_no_miss (pad N M : Nat) (hpad : 0 < pad) (hpU : pad < U)
    (hN : 0 < N) (hM : M < U) : (runUpTo pad N M).1.NMiss = 0 :=
  (runUpTo_inv pad N hpad hpU hN M hM).2.2.2

theorem C8_sequential_no_miss_witness :
    (0 < 2) ∧ (2 < U) ∧ (0 < 3) ∧ (9 < U) ∧ (runUpTo 2 3 9).1.NMiss = 0 :=
  ⟨by decide, by decide, by decide, by decide,
    C8_sequential_no_miss 2 3 9 (by decide) (by decide) (by decide) (by decide)⟩
